import Mathlib

/-
  Verification development for the Chimera "Raman Whisper" modem pipeline
  (python_src/chimera/pipeline.py, python_src/chimera/utils.py,
  chimera/config.py).  The Python source is shallowly embedded: machine
  integers become Nat/Int, numpy bit arrays become List Nat, fallible code
  returns Except, and float-valued loop state is modelled over the exact
  rationals with the transcendental primitives passed in as parameters.
-/

namespace Chimera

/-! ## Error kinds (spec section 7) -/

/-- Fatal error kinds of the pipeline.  The first five are the kinds listed
in section 7 of the specification; the last two model Python runtime errors
(AttributeError, ZeroDivisionError) that are not in that list. -/
inductive ErrorKind where
  | invalidArgument
  | protocolOverflow
  | matrixShape
  | missingBackend
  | frameSyncLost
  | attributeError
  | zeroDivisionError
deriving DecidableEq

/-- Whether an error kind is one of the five fatal kinds listed in
section 7 of the specification. -/
def section7Fatal : ErrorKind → Bool
  | .invalidArgument => true
  | .protocolOverflow => true
  | .matrixShape => true
  | .missingBackend => true
  | .frameSyncLost => true
  | .attributeError => false
  | .zeroDivisionError => false

/-! ## Bit primitives (utils.py) -/

/-- Big-endian rendering of a natural number on n bits, the value of
Python format(value, "0nb") when value < 2^n. -/
def natToBitsBE (v n : Nat) : List Nat :=
  (List.range n).map (fun i => v / 2 ^ (n - 1 - i) % 2)

/-- utils.int_to_bitstream: fixed-width big-endian bit array; raises
ValueError (InvalidArgument) when num_bits is not positive or the value
does not fit. -/
def intToBitstream (value : Nat) (numBits : Nat) : Except ErrorKind (List Nat) :=
  if numBits = 0 then .error .invalidArgument
  else if value ≥ 2 ^ numBits then .error .invalidArgument
  else .ok (natToBitsBE value numBits)

/-- Value of a hexadecimal digit character, none when the character is not
a hex digit (bytes.fromhex raises ValueError there). -/
def hexDigitVal (c : Char) : Option Nat :=
  if '0' ≤ c ∧ c ≤ '9' then some (c.toNat - '0'.toNat)
  else if 'a' ≤ c ∧ c ≤ 'f' then some (c.toNat - 'a'.toNat + 10)
  else if 'A' ≤ c ∧ c ≤ 'F' then some (c.toNat - 'A'.toNat + 10)
  else none

/-- Python str.zfill: left-pad with the digit zero up to width n. -/
def zfill (s : List Char) (n : Nat) : List Char :=
  List.replicate (n - s.length) '0' ++ s

/-- utils.hex_to_bitstream: left-pad the hex string to expected_bits/4
digits, parse it as bytes and unpack the bits MSB-first.  Raises ValueError
(InvalidArgument) when expected_bits is not a multiple of 8, when a digit
is not hexadecimal, or when the digit count is odd. -/
def hexToBitstream (hexString : List Char) (expectedBits : Nat) : Except ErrorKind (List Nat) :=
  if expectedBits % 8 ≠ 0 then .error .invalidArgument
  else
    let padded := zfill hexString (expectedBits / 4)
    if padded.length % 2 ≠ 0 then .error .invalidArgument
    else
      match padded.mapM hexDigitVal with
      | none => .error .invalidArgument
      | some ds => .ok ((ds.map (fun d => natToBitsBE d 4)).flatten)

/-- utils.string_to_bitstream on the UTF-8 byte rendering of the text:
unpack each byte into 8 bits, MSB first.  The empty string gives the empty
bit list. -/
def stringToBitstream (utf8Bytes : List Nat) : List Nat :=
  (utf8Bytes.map (fun b => natToBitsBE (b % 256) 8)).flatten

/-! ## Configuration records (config.py) -/

/-- config.FrameLayout: symbol counts per frame. -/
structure FrameLayout where
  total_symbols : Nat
  sync_symbols : Nat
  target_id_symbols : Nat
  command_type_symbols : Nat
  data_payload_symbols : Nat
  ecc_symbols : Nat
deriving DecidableEq

/-- FrameLayout.message_bits. -/
def FrameLayout.message_bits (l : FrameLayout) : Nat := l.data_payload_symbols * 2

/-- FrameLayout.ecc_bits. -/
def FrameLayout.ecc_bits (l : FrameLayout) : Nat := l.ecc_symbols * 2

/-- FrameLayout.codeword_bits. -/
def FrameLayout.codeword_bits (l : FrameLayout) : Nat := l.message_bits + l.ecc_bits

/-- FrameLayout.frame_bits. -/
def FrameLayout.frame_bits (l : FrameLayout) : Nat := l.total_symbols * 2

/-- The default FrameLayout of config.py. -/
def defaultFrameLayout : FrameLayout := ⟨128, 16, 16, 16, 64, 16⟩

/-- config.ProtocolConfig, restricted to the integer- and string-valued
fields the framing and decoding stages read (the float-valued carrier and
rate fields are carried as exact rationals). -/
structure ProtocolConfig where
  carrier_freq_hz : ℚ
  qpsk_symbol_rate : Nat
  qpsk_bandwidth_hz : ℚ
  fsk_bit_rate : ℚ
  fsk_freq_zero_hz : ℚ
  fsk_freq_one_hz : ℚ
  command_opcode : Nat
  frame_layout : FrameLayout
  sync_sequence_hex : List Char
  target_id_hex : List Char
  max_frames : Nat
  current_frame_shift : Nat
  total_frames_shift : Nat
deriving DecidableEq

/-- The default ProtocolConfig of config.py. -/
def defaultProtocol : ProtocolConfig :=
  ⟨12000, 16, 20, 1, 11999, 12001, 0x0001, defaultFrameLayout,
   "A5A5A5A5".data, "DEADBEEF".data, 256, 16, 24⟩

/-- The field names of the frozen dataclass config.SimulationConfig.
Attribute access on a SimulationConfig succeeds exactly for these names. -/
def simulationConfigFields : List String :=
  ["sample_rate", "bit_depth", "snr_db", "plaintext_source", "rng_seed"]

/-- Python getattr on a SimulationConfig instance: some field when the
dataclass declares the attribute, none (AttributeError) otherwise. -/
def simulationConfigGetattr (attr : String) : Option String :=
  if simulationConfigFields.contains attr then some attr else none

/-! ## QPSK constellation maps (pipeline.py lines 226-235 and 405-417) -/

/-- The forward Gray dictionary qpsk_symbol_map of
generate_modulated_signal: bit pair to constellation index; none models a
KeyError on a non-bit pair. -/
def qpskSymbolMap : Nat → Nat → Option Nat
  | 0, 0 => some 0
  | 0, 1 => some 1
  | 1, 1 => some 2
  | 1, 0 => some 3
  | _, _ => none

/-- The phase table qpsk_phase_map = array([1, 0, 2, 3]) * pi/2 + pi/4,
expressed exactly in units of pi/4 (so [3, 1, 5, 7]). -/
def qpskPhaseMapQuarter : Nat → Int
  | 0 => 3
  | 1 => 1
  | 2 => 5
  | 3 => 7
  | _ => 0

/-- np.angle(np.exp(1j * theta)) wraps theta into (-pi, pi]; here exactly,
in units of pi/4: the result lies in (-4, 4]. -/
def wrapQuarter (d : Int) : Int :=
  let m := d % 8
  if m > 4 then m - 8 else m

/-- np.argmin: index of the first minimal element of a list of naturals. -/
def argminIdx (l : List Nat) : Nat :=
  (List.range l.length).foldl
    (fun best i => if l.getD i 0 < l.getD best 0 then i else best) 0

/-- The phase slicer of demodulate_and_decode, on a phase that is an exact
multiple of pi/4: the constellation index minimising the absolute wrapped
distance to the phase table (first index on ties, as np.argmin). -/
def sliceSymbolQuarter (phaseQ : Int) : Nat :=
  argminIdx ((List.range 4).map
    (fun k => (wrapQuarter (phaseQ - qpskPhaseMapQuarter k)).natAbs))

/-- The dictionary qpsk_reverse_bit_map of demodulate_and_decode:
constellation index to bit pair. -/
def qpskReverseBitMap : Nat → Option (Nat × Nat)
  | 0 => some (0, 1)
  | 1 => some (0, 0)
  | 2 => some (1, 1)
  | 3 => some (1, 0)
  | _ => none

/-- The modulate-then-slice round trip of claim C3: bit pair through the
forward Gray table to a constellation index, its exact phase from the
phase table, the slicer on that phase, and back through
qpsk_reverse_bit_map. -/
def qpskRoundTrip (b1 b2 : Nat) : Option (Nat × Nat) :=
  (qpskSymbolMap b1 b2).bind
    (fun s => qpskReverseBitMap (sliceSymbolQuarter (qpskPhaseMapQuarter s)))

/-! ## Matched-filter tap grid (pipeline.py lines 379-384) -/

/-- np.arange on integers: the list lo, lo+1, ..., hi-1. -/
def pyArange (lo hi : Int) : List Int :=
  (List.range (hi - lo).toNat).map (fun i => lo + i)

/-- num_taps of demodulate_and_decode. -/
def rrcNumTaps : Nat := 101

/-- The tap index grid np.arange(-num_taps // 2, num_taps // 2 + 1) of the
root-raised-cosine matched filter, with Python floor division
(-101 // 2 = -51).  Each index is later divided by samples_per_symbol to
give t_rrc; the division does not change the count. -/
def rrcTapIndices : List Int :=
  pyArange (Int.fdiv (-(rrcNumTaps : Int)) 2) (Int.fdiv (rrcNumTaps : Int) 2 + 1)

/-! ## LDPC matrices (pipeline.py create_ldpc_matrices, lines 91-125) -/

/-- pipeline.LDPCMatrices: parity-check and generator matrices as row
lists, plus the bit counts. -/
structure LDPCMatrices where
  H : List (List Nat)
  G : List (List Nat)
  message_bits : Nat
  codeword_bits : Nat
deriving DecidableEq

/-- Row i of the k-by-k identity matrix np.identity(k). -/
def identityRow (k i : Nat) : List Nat :=
  (List.range k).map (fun j => if j = i then 1 else 0)

/-- The generator matrix of create_ldpc_matrices:
P = H[:, :k].T and G = np.concatenate((I_k, P), axis=1) % 2, so row i of G
is (row i of I_k) ++ (column i of H), everything reduced mod 2. -/
def buildG (H : List (List Nat)) (k : Nat) : List (List Nat) :=
  (List.range k).map
    (fun i => ((identityRow k i) ++ H.map (fun row => row.getD i 0)).map (fun x => x % 2))

/-- create_ldpc_matrices, parameterised by the parity-check matrix H that
pyldpc.make_ldpc returned: derive G and check that its shape is
(message_bits, codeword_bits), raising ValueError (MatrixShape) otherwise. -/
def createLdpcMatrices (protocol : ProtocolConfig) (H : List (List Nat)) :
    Except ErrorKind LDPCMatrices :=
  let k := protocol.frame_layout.message_bits
  let n := protocol.frame_layout.codeword_bits
  let G := buildG H k
  if G.length = k ∧ ∀ row ∈ G, row.length = n then
    .ok ⟨H, G, k, n⟩
  else .error .matrixShape

/-- Modelled from the spec: pyldpc.make_ldpc is an external dependency and
its source is not under src/.  Spec section 4.B says construction builds a
regular parity-check matrix H of shape (n-k) x n in systematic form; a
systematic parity-check matrix carries the identity on its last n-k
columns, so H is modelled as [A | I] for an arbitrary 0/1 block A with
n-k rows of k entries. -/
def systematicParityH (A : List (List Nat)) : List (List Nat) :=
  (List.range A.length).map (fun m => (A.getD m []) ++ identityRow A.length m)

/-- Mod-2 dot product of two rows (entrywise product summed, reduced
mod 2), the (i, j) entry of a mod-2 matrix product against a transposed
factor. -/
def rowDotMod2 (r1 r2 : List Nat) : Nat :=
  (((r1.zip r2).map (fun p => p.1 * p.2)).sum) % 2

/-- G * H^T mod 2 as a matrix of rows: entry (i, j) is the mod-2 dot
product of row i of G with row j of H. -/
def matMulTransposeMod2 (G H : List (List Nat)) : List (List Nat) :=
  G.map (fun gr => H.map (fun hr => rowDotMod2 gr hr))

/-- Mod-2 row-vector-times-matrix product m @ G % 2 of numpy: component j
of the result is the dot product of m with column j of G, reduced mod 2.
The number of columns is read off the first row of G. -/
def matVecMod2 (v : List Nat) (G : List (List Nat)) : List Nat :=
  (List.range ((G.headD []).length)).map
    (fun j => (((v.zip G).map (fun p => p.1 * p.2.getD j 0)).sum) % 2)

/-! ## Frame assembler (pipeline.py build_full_bitstream, lines 128-177) -/

/-- Ceiling division, the exact value of math.ceil(a / b) for positive b. -/
def ceilDiv (a b : Nat) : Nat := (a + b - 1) / b

/-- total_frames of build_full_bitstream:
math.ceil(len(payload_bits) / matrices.message_bits) when the payload is
nonempty, otherwise 1. -/
def totalFramesOf (payloadLen messageBits : Nat) : Nat :=
  if payloadLen = 0 then 1 else ceilDiv payloadLen messageBits

/-- The command word of frame frame_idx:
command_opcode OR (frame_idx shifted by current_frame_shift) OR
(total_frames shifted by total_frames_shift). -/
def commandWord (protocol : ProtocolConfig) (frameIdx totalFrames : Nat) : Nat :=
  protocol.command_opcode ||| (frameIdx <<< protocol.current_frame_shift) |||
    (totalFrames <<< protocol.total_frames_shift)

/-- One iteration of the frame loop of build_full_bitstream: render the
command word on command_type_symbols * 2 bits, slice the payload chunk and
right-pad it with zeros to message_bits, encode it with G, and concatenate
sync, target id, command, codeword payload part and ecc part. -/
def buildFrame (protocol : ProtocolConfig) (matrices : LDPCMatrices)
    (syncBits targetIdBits payloadBits : List Nat) (totalFrames frameIdx : Nat) :
    Except ErrorKind (List Nat) := do
  let commandBits ← intToBitstream (commandWord protocol frameIdx totalFrames)
    (protocol.frame_layout.command_type_symbols * 2)
  let chunk := (payloadBits.drop (frameIdx * matrices.message_bits)).take matrices.message_bits
  let chunkPadded := chunk ++ List.replicate (matrices.message_bits - chunk.length) 0
  let codeword := matVecMod2 chunkPadded matrices.G
  let payloadPart := codeword.take matrices.message_bits
  let eccPart := codeword.drop matrices.message_bits
  .ok (syncBits ++ targetIdBits ++ commandBits ++ payloadPart ++ eccPart)

/-- The frame loop of build_full_bitstream: build the frame of each index
in order, appending to the frames list; a ValueError raised inside a frame
escapes the loop. -/
def buildFramesLoop (protocol : ProtocolConfig) (matrices : LDPCMatrices)
    (syncBits targetIdBits payloadBits : List Nat) (totalFrames : Nat) :
    List Nat → Except ErrorKind (List (List Nat))
  | [] => .ok []
  | frameIdx :: rest => do
    let frame ← buildFrame protocol matrices syncBits targetIdBits payloadBits
      totalFrames frameIdx
    let frames ← buildFramesLoop protocol matrices syncBits targetIdBits payloadBits
      totalFrames rest
    .ok (frame :: frames)

/-- build_full_bitstream: compute total_frames, fail with ValueError
(ProtocolOverflow) when it exceeds max_frames, render the sync and target
id fields, build every frame in order and concatenate them. -/
def buildFullBitstream (payloadBits : List Nat) (protocol : ProtocolConfig)
    (matrices : LDPCMatrices) : Except ErrorKind (List Nat × Nat) := do
  let totalFrames := totalFramesOf payloadBits.length matrices.message_bits
  if totalFrames > protocol.max_frames then
    .error .protocolOverflow
  else do
    let syncBits ← hexToBitstream protocol.sync_sequence_hex
      (protocol.frame_layout.sync_symbols * 2)
    let targetIdBits ← hexToBitstream protocol.target_id_hex
      (protocol.frame_layout.target_id_symbols * 2)
    let frames ← buildFramesLoop protocol matrices syncBits targetIdBits payloadBits
      totalFrames (List.range totalFrames)
    .ok (frames.flatten, totalFrames)

/-! ## Frame synchronisation search (pipeline.py lines 430-441) -/

/-- Python slice demod[start : start + len] on a bit list. -/
def listSlice (l : List Nat) (start len : Nat) : List Nat :=
  (l.drop start).take len

/-- The body of the sync search loop: starting at idx, try rem candidate
positions in increasing order, returning the first index whose slice of
sync-pattern length equals the pattern. -/
def syncSearchAux (demod syncBits : List Nat) : Nat → Nat → Option Nat
  | _, 0 => none
  | idx, rem + 1 =>
    if listSlice demod idx syncBits.length = syncBits then some idx
    else syncSearchAux demod syncBits (idx + 1) rem

/-- The sync search of demodulate_and_decode: for idx in
range(max(len(demodulated_bitstream) - len(sync_bits), 0)), return the
first idx at which the slice equals the sync pattern.  Note the range
bound: the final alignment idx = len - len(sync_bits) is not tried. -/
def findSyncLocation (demod syncBits : List Nat) : Option Nat :=
  syncSearchAux demod syncBits 0 (demod.length - syncBits.length)

/-- The frame-sync step of demodulate_and_decode: RuntimeError
(FrameSyncLost) when the search finds nothing, otherwise the location. -/
def frameSyncStage (demod syncBits : List Nat) : Except ErrorKind Nat :=
  match findSyncLocation demod syncBits with
  | none => .error .frameSyncLost
  | some p => .ok p

/-! ## Post-FEC tail of demodulate_and_decode (pipeline.py lines 473-481) -/

/-- Python division a / b on integers: ZeroDivisionError when b = 0,
otherwise the exact quotient. -/
def pyDivNat (a b : Nat) : Except ErrorKind ℚ :=
  if b = 0 then .error .zeroDivisionError else .ok ((a : ℚ) / (b : ℚ))

/-- np.sum(xs != ys) over two equal-length bit arrays: the number of
positions where they differ. -/
def countBitErrors (xs ys : List Nat) : Nat :=
  ((xs.zip ys).filter (fun p => p.1 ≠ p.2)).length

/-- The post-FEC tail of demodulate_and_decode: trim the decoded bits to
the payload length, count the errors and divide by the payload length to
get post_fec_ber.  The division raises ZeroDivisionError on an empty
payload. -/
def postFecStage (payloadBits decodedBits : List Nat) :
    Except ErrorKind (List Nat × Nat × ℚ) := do
  let trimmed := decodedBits.take payloadBits.length
  let errors := countBitErrors payloadBits trimmed
  let ber ← pyDivNat errors payloadBits.length
  .ok (trimmed, errors, ber)

/-! ## run_simulation stage skeleton (pipeline.py lines 520-548) -/

/-- The stage sequencing of run_simulation with the numeric work of each
stage abstracted as its Except outcome: build the matrices, run the
encoder, then call demodulate_and_decode with the keyword argument
plot = sim_config.generate_plots.  Evaluating that argument is an
attribute access on the SimulationConfig dataclass and raises
AttributeError when the dataclass does not declare the field. -/
def runSimulationSkeleton (createStage encodeStage demodStage : Except ErrorKind Unit) :
    Except ErrorKind Unit := do
  createStage
  encodeStage
  match simulationConfigGetattr "generate_plots" with
  | none => Except.error ErrorKind.attributeError
  | some _ => demodStage

/-! ## Concrete instances used as witnesses and counterexample inputs -/

/-- A concrete 32 x 160 all-zero parity-check matrix, standing in for one
particular output of pyldpc.make_ldpc in concrete evaluations (the framing
bugs under study do not depend on the entries of H). -/
def H0 : List (List Nat) := List.replicate 32 (List.replicate 160 0)

/-- The LDPCMatrices record that create_ldpc_matrices produces from H0
under the default protocol. -/
def M0 : LDPCMatrices := ⟨H0, buildG H0 128, 128, 160⟩

/-- The sync pattern bits of the default protocol, 0xA5A5A5A5 on 32 bits. -/
def syncBits0 : List Nat := natToBitsBE 0xA5A5A5A5 32

/-- The target id bits of the default protocol, 0xDEADBEEF on 32 bits. -/
def targetBits0 : List Nat := natToBitsBE 0xDEADBEEF 32

/-! ## Joint timing and carrier recovery
(pipeline.py _timing_and_carrier_recovery_impl, lines 277-341).
Complex samples are pairs of exact rationals; the two transcendental
primitives of the loop body, np.exp(-1j * phase) and np.arctan2, are
passed in as parameters (cexpNeg and arctan2), as is the float constant
2 * np.pi used to convert the NCO frequency to Hz. -/

/-- Complex multiplication on pairs (re, im). -/
def cmul (a b : ℚ × ℚ) : ℚ × ℚ :=
  (a.1 * b.1 - a.2 * b.2, a.1 * b.2 + a.2 * b.1)

/-- The loop gains of _timing_and_carrier_recovery_impl. -/
structure LoopGains where
  kp_carrier : ℚ
  ki_carrier : ℚ
  kp_timing : ℚ
  ki_timing : ℚ
deriving DecidableEq

/-- The default gains of the source: kp_carrier = 5e-6,
ki_carrier = kp_carrier^2 / 4, kp_timing = 1e-4, ki_timing = 1e-6. -/
def defaultLoopGains : LoopGains :=
  ⟨5 / 1000000, (5 / 1000000) ^ 2 / 4, 1 / 10000, 1 / 1000000⟩

/-- The mutable state of the recovery loop, including the three output
lists (appended in emission order). -/
structure LoopState where
  nco_phase : ℚ
  nco_freq_rad : ℚ
  integrator_carrier : ℚ
  timing_error : ℚ
  integrator_timing : ℚ
  i_in : ℚ
  out_symbols : List (ℚ × ℚ)
  out_nco_freq : List ℚ
  out_timing_error : List ℚ
deriving DecidableEq

/-- The initial loop state: all accumulators zero, i_in at
samples_per_symbol, empty outputs. -/
def initLoopState (sps : ℚ) : LoopState :=
  ⟨0, 0, 0, 0, 0, sps, [], [], []⟩

/-- Outcome of one pass through the while-loop body: halt models the two
break statements (an interpolation index out of range), next carries the
updated state. -/
inductive StepOutcome where
  | halt (st : LoopState)
  | next (st : LoopState)

/-- Linear interpolation of the baseband at rational position pos:
idx = floor(pos), frac = pos - idx, value
signal[idx] + frac * (signal[idx+1] - signal[idx]); none models the break
when idx < 1 or idx + 1 >= len(signal). -/
def interpAt (signal : List (ℚ × ℚ)) (pos : ℚ) : Option (ℚ × ℚ) :=
  let idx : Int := ⌊pos⌋
  let frac : ℚ := pos - idx
  if idx < 1 ∨ idx + 1 ≥ (signal.length : Int) then none
  else
    let s0 := signal.getD idx.toNat (0, 0)
    let s1 := signal.getD (idx.toNat + 1) (0, 0)
    some (s0.1 + frac * (s1.1 - s0.1), s0.2 + frac * (s1.2 - s0.2))

/-- One iteration of the while-loop body of
_timing_and_carrier_recovery_impl (the code from the mid interpolation to
the three appends). -/
def loopStep (cexpNeg : ℚ → ℚ × ℚ) (arctan2 : ℚ → ℚ → ℚ) (twoPi sampleRate : ℚ)
    (gains : LoopGains) (signal : List (ℚ × ℚ)) (sps : ℚ) (st : LoopState) :
    StepOutcome :=
  match interpAt signal st.i_in with
  | none => .halt st
  | some midInterp =>
    match interpAt signal (st.i_in - sps / 2) with
    | none => .halt st
    | some halfInterp =>
      let ncoOutput := cexpNeg st.nco_phase
      let correctedMid := cmul midInterp ncoOutput
      let correctedHalf := cmul halfInterp ncoOutput
      let timingError :=
        match st.out_symbols.getLast? with
        | none => st.timing_error
        | some prevMid =>
          correctedHalf.1 * (correctedMid.1 - prevMid.1) +
            correctedHalf.2 * (correctedMid.2 - prevMid.2)
      let integratorTiming := st.integrator_timing + gains.ki_timing * timingError
      let iIn := st.i_in + sps - (gains.kp_timing * timingError + integratorTiming)
      let phaseError := arctan2 correctedMid.2 correctedMid.1
      let integratorCarrier := st.integrator_carrier + gains.ki_carrier * phaseError
      let ncoFreqRad := st.nco_freq_rad + gains.kp_carrier * phaseError + integratorCarrier
      let ncoPhase := st.nco_phase + ncoFreqRad
      .next ⟨ncoPhase, ncoFreqRad, integratorCarrier, timingError, integratorTiming, iIn,
             st.out_symbols ++ [correctedMid],
             st.out_nco_freq ++ [ncoFreqRad * sampleRate / twoPi],
             st.out_timing_error ++ [timingError]⟩

/-- The while loop of _timing_and_carrier_recovery_impl, run with explicit
fuel: while i_in < len(signal) - samples_per_symbol - 1, run the body;
none when the fuel runs out before the loop condition turns false or a
break fires. -/
def loopRun (cexpNeg : ℚ → ℚ × ℚ) (arctan2 : ℚ → ℚ → ℚ) (twoPi sampleRate : ℚ)
    (gains : LoopGains) (signal : List (ℚ × ℚ)) (sps : ℚ) :
    Nat → LoopState → Option LoopState
  | fuel, st =>
    if st.i_in < (signal.length : ℚ) - sps - 1 then
      match fuel with
      | 0 => none
      | fuel + 1 =>
        match loopStep cexpNeg arctan2 twoPi sampleRate gains signal sps st with
        | .halt stH => some stH
        | .next stN => loopRun cexpNeg arctan2 twoPi sampleRate gains signal sps fuel stN
    else some st

/-!
## Helper lemmas
-/

/-- A zipped elementwise product summed equals the Finset range sum of the
pointwise products up to the shorter length. -/
theorem sum_zip_eq_sum_range {α β : Type} (f : α → β → ℕ) (d1 : α) (d2 : β) :
    ∀ (l1 : List α) (l2 : List β),
      ((l1.zip l2).map (fun p => f p.1 p.2)).sum =
        ∑ c ∈ Finset.range (min l1.length l2.length), f (l1.getD c d1) (l2.getD c d2) := by
  intro l1
  induction l1 with
  | nil => intro l2; simp
  | cons a l1 ih =>
    intro l2
    cases l2 with
    | nil => simp
    | cons b l2 =>
      simp only [List.zip_cons_cons, List.map_cons, List.sum_cons, List.length_cons,
        Nat.succ_min_succ]
      rw [Finset.sum_range_succ']
      simp only [List.getD_cons_succ, List.getD_cons_zero]
      rw [ih l2]
      omega

/-- Entry j of row i of the generator matrix, in the identity block:
row i of buildG H k starts with row i of the k-by-k identity. -/
theorem buildG_getD_left (H : List (List Nat)) (k i j : Nat) (hi : i < k) (hj : j < k) :
    (((buildG H k).getD i []).getD j 0) = if j = i then 1 else 0 := by
  have hrow : (buildG H k).getD i [] =
      ((identityRow k i) ++ H.map (fun row => row.getD i 0)).map (fun x => x % 2) := by
    rw [buildG, List.getD_eq_getElem?_getD, List.getElem?_map, List.getElem?_range hi]
    rfl
  rw [hrow]
  have hlen : j < (identityRow k i).length := by
    simp [identityRow, hj]
  have : ((identityRow k i) ++ H.map (fun row => row.getD i 0)).getD j 0 =
      if j = i then 1 else 0 := by
    rw [List.getD_append _ _ _ _ hlen]
    rw [identityRow, List.getD_eq_getElem?_getD, List.getElem?_map, List.getElem?_range hj]
    rfl
  rw [List.getD_eq_getElem?_getD, List.getElem?_map]
  rw [List.getD_eq_getElem?_getD] at this
  cases hx : ((identityRow k i) ++ H.map (fun row => row.getD i 0))[j]? with
  | none =>
    exfalso
    rw [List.getElem?_eq_none_iff, List.length_append] at hx
    omega
  | some v =>
    rw [hx] at this
    simp only [Option.getD_some] at this
    simp only [Option.map_some', Option.getD_some]
    subst this
    split <;> rfl

/-- Entry k + c of row i of the generator matrix, in the parity block:
the transposed restricted parity-check entry H[c][i] reduced mod 2. -/
theorem buildG_getD_right (H : List (List Nat)) (k i c : Nat) (hi : i < k)
    (hc : c < H.length) :
    (((buildG H k).getD i []).getD (k + c) 0) = ((H.getD c []).getD i 0) % 2 := by
  have hrow : (buildG H k).getD i [] =
      ((identityRow k i) ++ H.map (fun row => row.getD i 0)).map (fun x => x % 2) := by
    rw [buildG, List.getD_eq_getElem?_getD, List.getElem?_map, List.getElem?_range hi]
    rfl
  rw [hrow]
  have hidlen : (identityRow k i).length = k := by simp [identityRow]
  have hmaplen : (H.map (fun row => row.getD i 0)).length = H.length := by simp
  have hin : k + c < ((identityRow k i) ++ H.map (fun row => row.getD i 0)).length := by
    rw [List.length_append, hidlen, hmaplen]; omega
  rw [List.getD_eq_getElem?_getD, List.getElem?_map, List.getElem?_eq_getElem hin]
  simp only [Option.map_some', Option.getD_some]
  have hbase : ((identityRow k i) ++ H.map (fun row => row.getD i 0)).getD (k + c) 0 =
      (H.getD c []).getD i 0 := by
    rw [List.getD_append_right _ _ _ _ (by omega : (identityRow k i).length ≤ k + c)]
    rw [hidlen]
    have : k + c - k = c := by omega
    rw [this]
    rw [List.getD_eq_getElem?_getD, List.getElem?_map, List.getElem?_eq_getElem hc]
    simp only [Option.map_some', Option.getD_some]
    rw [List.getD_eq_getElem?_getD, List.getD_eq_getElem H [] hc,
      List.getD_eq_getElem?_getD]
  rw [List.getD_eq_getElem?_getD, List.getElem?_eq_getElem hin] at hbase
  simp only [Option.getD_some] at hbase
  rw [hbase]

/-- Entrywise description of an identity-matrix row. -/
theorem identityRow_getD (k i c : Nat) (hc : c < k) :
    (identityRow k i).getD c 0 = if c = i then 1 else 0 := by
  rw [identityRow, List.getD_eq_getElem?_getD, List.getElem?_map, List.getElem?_range hc]
  rfl

/-- Length of an identity-matrix row. -/
theorem identityRow_length (k i : Nat) : (identityRow k i).length = k := by
  simp [identityRow]

/-- Row i of buildG H k spelled out. -/
theorem buildG_getD_eq (H : List (List Nat)) (k i : Nat) (hi : i < k) :
    (buildG H k).getD i [] =
      ((identityRow k i) ++ H.map (fun row => row.getD i 0)).map (fun x => x % 2) := by
  rw [buildG, List.getD_eq_getElem?_getD, List.getElem?_map, List.getElem?_range hi]
  rfl

/-- The modelled systematic parity-check matrix has as many rows as its
left block. -/
theorem systematicParityH_length (A : List (List Nat)) :
    (systematicParityH A).length = A.length := by
  simp [systematicParityH]

/-- Row j of the modelled systematic parity-check matrix spelled out. -/
theorem systematicParityH_getD (A : List (List Nat)) (j : Nat) (hj : j < A.length) :
    (systematicParityH A).getD j [] = A.getD j [] ++ identityRow A.length j := by
  rw [systematicParityH, List.getD_eq_getElem?_getD, List.getElem?_map,
    List.getElem?_range hj]
  rfl

/-- The number of rows of buildG H k is k. -/
theorem buildG_length (H : List (List Nat)) (k : Nat) : (buildG H k).length = k := by
  simp [buildG]

/-- Every row of buildG H k has k + H.length entries. -/
theorem buildG_row_length (H : List (List Nat)) (k i : Nat) (hi : i < k) :
    ((buildG H k).getD i []).length = k + H.length := by
  have hrow : (buildG H k).getD i [] =
      ((identityRow k i) ++ H.map (fun row => row.getD i 0)).map (fun x => x % 2) := by
    rw [buildG, List.getD_eq_getElem?_getD, List.getElem?_map, List.getElem?_range hi]
    rfl
  rw [hrow]
  simp [identityRow]

/-- Bind on Except propagates a first successful component. -/
theorem exceptBind_ok {ε α β : Type} (a : α) (f : α → Except ε β) :
    (Except.ok (ε := ε) a >>= f) = f a := rfl

/-- Bind on Except short-circuits an error. -/
theorem exceptBind_err {ε α β : Type} (e : ε) (f : α → Except ε β) :
    ((Except.error e : Except ε α) >>= f) = Except.error e := rfl

/-- Length of a big-endian bit rendering. -/
theorem natToBitsBE_length (v n : Nat) : (natToBitsBE v n).length = n := by
  simp [natToBitsBE]

/-- int_to_bitstream succeeds exactly on positive widths with a fitting
value, and then returns the big-endian bits. -/
theorem intToBitstream_ok (v n : Nat) (hn : n ≠ 0) (hv : v < 2 ^ n) :
    intToBitstream v n = .ok (natToBitsBE v n) := by
  rw [intToBitstream, if_neg hn, if_neg (by omega)]

/-- The default-protocol command word of a frame index below 256 and a
frame total of at most 255 fits in 32 bits. -/
theorem commandWord_lt (i t : Nat) (hi : i < 256) (ht : t ≤ 255) :
    commandWord defaultProtocol i t < 2 ^ 32 := by
  unfold commandWord
  have h1 : defaultProtocol.command_opcode = 1 := rfl
  have h2 : defaultProtocol.current_frame_shift = 16 := rfl
  have h3 : defaultProtocol.total_frames_shift = 24 := rfl
  rw [h1, h2, h3, Nat.shiftLeft_eq, Nat.shiftLeft_eq]
  apply Nat.or_lt_two_pow
  · apply Nat.or_lt_two_pow
    · norm_num
    · have : i * 2 ^ 16 ≤ 255 * 2 ^ 16 := by
        apply Nat.mul_le_mul_right
        omega
      norm_num at this ⊢
      omega
  · have : t * 2 ^ 24 ≤ 255 * 2 ^ 24 := by
      apply Nat.mul_le_mul_right
      omega
    norm_num at this ⊢
    omega

/-- When the command word fits, build_frame returns the concatenated
frame. -/
theorem buildFrame_eq_ok (protocol : ProtocolConfig) (M : LDPCMatrices)
    (sync target payload : List Nat) (t i : Nat)
    (hn : protocol.frame_layout.command_type_symbols * 2 ≠ 0)
    (hcmd : commandWord protocol i t < 2 ^ (protocol.frame_layout.command_type_symbols * 2)) :
    buildFrame protocol M sync target payload t i =
      .ok (sync ++ target ++
        natToBitsBE (commandWord protocol i t) (protocol.frame_layout.command_type_symbols * 2) ++
        (matVecMod2 (((payload.drop (i * M.message_bits)).take M.message_bits) ++
          List.replicate (M.message_bits -
            ((payload.drop (i * M.message_bits)).take M.message_bits).length) 0) M.G).take
          M.message_bits ++
        (matVecMod2 (((payload.drop (i * M.message_bits)).take M.message_bits) ++
          List.replicate (M.message_bits -
            ((payload.drop (i * M.message_bits)).take M.message_bits).length) 0) M.G).drop
          M.message_bits) := by
  unfold buildFrame
  rw [intToBitstream_ok _ _ hn hcmd, exceptBind_ok]

/-- Inversion for build_frame: success forces the command word to fit and
pins down the frame contents. -/
theorem buildFrame_ok_inv (protocol : ProtocolConfig) (M : LDPCMatrices)
    (sync target payload : List Nat) (t i : Nat) (f : List Nat)
    (h : buildFrame protocol M sync target payload t i = .ok f) :
    protocol.frame_layout.command_type_symbols * 2 ≠ 0 ∧
    commandWord protocol i t < 2 ^ (protocol.frame_layout.command_type_symbols * 2) ∧
    f = sync ++ target ++
      natToBitsBE (commandWord protocol i t) (protocol.frame_layout.command_type_symbols * 2) ++
      (matVecMod2 (((payload.drop (i * M.message_bits)).take M.message_bits) ++
        List.replicate (M.message_bits -
          ((payload.drop (i * M.message_bits)).take M.message_bits).length) 0) M.G).take
        M.message_bits ++
      (matVecMod2 (((payload.drop (i * M.message_bits)).take M.message_bits) ++
        List.replicate (M.message_bits -
          ((payload.drop (i * M.message_bits)).take M.message_bits).length) 0) M.G).drop
        M.message_bits := by
  by_cases hn : protocol.frame_layout.command_type_symbols * 2 = 0
  · exfalso
    unfold buildFrame intToBitstream at h
    rw [if_pos hn] at h
    exact absurd h (by simp [exceptBind_err])
  by_cases hcmd : commandWord protocol i t <
      2 ^ (protocol.frame_layout.command_type_symbols * 2)
  · refine ⟨hn, hcmd, ?_⟩
    rw [buildFrame_eq_ok protocol M sync target payload t i hn hcmd] at h
    exact (Except.ok.inj h).symm
  · exfalso
    unfold buildFrame intToBitstream at h
    rw [if_neg hn, if_pos (by omega)] at h
    exact absurd h (by simp [exceptBind_err])

/-- When every frame of an index list builds successfully, the frame loop
succeeds. -/
theorem buildFramesLoop_ok (protocol : ProtocolConfig) (M : LDPCMatrices)
    (sync target payload : List Nat) (t : Nat) :
    ∀ l : List Nat,
      (∀ i ∈ l, ∃ f, buildFrame protocol M sync target payload t i = .ok f) →
      ∃ fs, buildFramesLoop protocol M sync target payload t l = .ok fs := by
  intro l
  induction l with
  | nil => exact fun _ => ⟨[], rfl⟩
  | cons a l ih =>
    intro h
    obtain ⟨f, hf⟩ := h a (List.mem_cons_self a l)
    obtain ⟨fs, hfs⟩ := ih (fun i hi => h i (List.mem_cons_of_mem _ hi))
    refine ⟨f :: fs, ?_⟩
    unfold buildFramesLoop
    rw [hf, exceptBind_ok, hfs, exceptBind_ok]

/-- Inversion for the frame loop: the produced frame list is pointwise the
result of build_frame on the index list. -/
theorem buildFramesLoop_ok_inv (protocol : ProtocolConfig) (M : LDPCMatrices)
    (sync target payload : List Nat) (t : Nat) :
    ∀ (l : List Nat) (fs : List (List Nat)),
      buildFramesLoop protocol M sync target payload t l = .ok fs →
      fs.length = l.length ∧
      ∀ i < l.length,
        buildFrame protocol M sync target payload t (l.getD i 0) = .ok (fs.getD i []) := by
  intro l
  induction l with
  | nil =>
    intro fs h
    unfold buildFramesLoop at h
    cases h
    exact ⟨rfl, fun i hi => absurd hi (by simp)⟩
  | cons a l ih =>
    intro fs h
    unfold buildFramesLoop at h
    cases hf : buildFrame protocol M sync target payload t a with
    | error e => rw [hf, exceptBind_err] at h; exact absurd h (by simp)
    | ok f =>
      rw [hf, exceptBind_ok] at h
      cases hls : buildFramesLoop protocol M sync target payload t l with
      | error e => rw [hls, exceptBind_err] at h; exact absurd h (by simp)
      | ok fs0 =>
        rw [hls, exceptBind_ok] at h
        cases h
        obtain ⟨hlen, hpt⟩ := ih fs0 hls
        refine ⟨by simp [hlen], fun i hi => ?_⟩
        cases i with
        | zero => simpa using hf
        | succ n =>
          simp only [List.getD_cons_succ]
          exact hpt n (by simpa using hi)

/-- The length of a matrix-vector product mod 2 is the width of the first
row of the matrix. -/
theorem matVecMod2_length (v : List Nat) (G : List (List Nat)) :
    (matVecMod2 v G).length = (G.headD []).length := by
  simp [matVecMod2]

/-- The head of a list as a getD at 0. -/
theorem headD_eq_getD_zero (l : List (List Nat)) : l.headD [] = l.getD 0 [] := by
  cases l <;> simp [List.headD, List.getD]

/-- Flattening a list of lists of a common length n multiplies the length
by n. -/
theorem flatten_length_const (n : Nat) :
    ∀ fs : List (List Nat), (∀ f ∈ fs, f.length = n) →
      fs.flatten.length = fs.length * n := by
  intro fs
  induction fs with
  | nil => intro _; simp
  | cons f fs ih =>
    intro h
    have hf : f.length = n := h f (List.mem_cons_self f fs)
    have := ih (fun g hg => h g (List.mem_cons_of_mem _ hg))
    simp only [List.flatten_cons, List.length_append, List.length_cons, this, hf]
    ring

/-- Slicing inside element i of a flattened list of lists of common
length n reads inside that element. -/
theorem flatten_slice (n : Nat) :
    ∀ fs : List (List Nat), (∀ f ∈ fs, f.length = n) →
      ∀ i, i < fs.length → ∀ off len, off + len ≤ n →
        listSlice fs.flatten (i * n + off) len = listSlice (fs.getD i []) off len := by
  intro fs
  induction fs with
  | nil => intro _ i hi; simp at hi
  | cons f fs ih =>
    intro h i hi off len hol
    have hf : f.length = n := h f (List.mem_cons_self f fs)
    cases i with
    | zero =>
      simp only [Nat.zero_mul, Nat.zero_add, List.getD_cons_zero, List.flatten_cons]
      unfold listSlice
      rw [List.drop_append_eq_append_drop]
      have hoff : off - f.length = 0 := by omega
      rw [hoff, List.drop_zero, List.take_append_eq_append_take]
      have hlen : len - (List.drop off f).length = 0 := by
        rw [List.length_drop]
        omega
      rw [hlen, List.take_zero, List.append_nil]
    | succ i =>
      have hstep : (i + 1) * n + off = f.length + (i * n + off) := by
        rw [hf]; ring
      simp only [List.getD_cons_succ, List.flatten_cons]
      unfold listSlice
      rw [hstep, List.drop_append_eq_append_drop]
      have h1 : f.length + (i * n + off) - f.length = i * n + off := by omega
      rw [List.drop_eq_nil_of_le (by omega : f.length ≤ f.length + (i * n + off)), h1,
        List.nil_append]
      have := ih (fun g hg => h g (List.mem_cons_of_mem _ hg)) i (by simpa using hi)
        off len hol
      unfold listSlice at this
      exact this

/-- Slicing an append at offset 0 over the full left part returns the
left part. -/
theorem listSlice_append_left (a b : List Nat) (len : Nat) (ha : a.length = len) :
    listSlice (a ++ b) 0 len = a := by
  unfold listSlice
  rw [List.drop_zero, ← ha, List.take_left]

/-- Slicing an append at the length of the left part slices the right
part from 0. -/
theorem listSlice_append_shift (a b : List Nat) (off len : Nat) (ha : a.length = off) :
    listSlice (a ++ b) off len = listSlice b 0 len := by
  unfold listSlice
  rw [← ha, List.drop_left, List.drop_zero]

/-- Inversion for create_ldpc_matrices under the default protocol:
success pins the matrices record and gives the generator shape facts. -/
theorem createLdpcMatrices_ok_inv (H : List (List Nat)) (M : LDPCMatrices)
    (h : createLdpcMatrices defaultProtocol H = .ok M) :
    M = ⟨H, buildG H 128, 128, 160⟩ ∧ (buildG H 128).length = 128 ∧
      (∀ row ∈ buildG H 128, row.length = 160) ∧ H.length = 32 := by
  have hk : defaultProtocol.frame_layout.message_bits = 128 := rfl
  have hn : defaultProtocol.frame_layout.codeword_bits = 160 := rfl
  simp only [createLdpcMatrices, hk, hn] at h
  by_cases hcond : (buildG H 128).length = 128 ∧ ∀ row ∈ buildG H 128, row.length = 160
  · rw [if_pos hcond] at h
    have hM : M = ⟨H, buildG H 128, 128, 160⟩ := (Except.ok.inj h).symm
    have hH32 : H.length = 32 := by
      have h0 : (buildG H 128).getD 0 [] ∈ buildG H 128 := by
        rw [List.getD_eq_getElem _ [] (by omega : 0 < (buildG H 128).length)]
        exact List.getElem_mem (by omega)
      have := hcond.2 _ h0
      rw [buildG_row_length H 128 0 (by omega)] at this
      omega
    exact ⟨hM, hcond.1, hcond.2, hH32⟩
  · rw [if_neg hcond] at h
    exact absurd h (by simp)

/-- Inversion for build_full_bitstream under the default protocol:
success forces at most 255 frames and exposes the frame loop output. -/
theorem buildFullBitstream_ok_inv (payload : List Nat) (M : LDPCMatrices)
    (bits : List Nat) (total : Nat) (hm : M.message_bits = 128)
    (hb : buildFullBitstream payload defaultProtocol M = .ok (bits, total)) :
    total = totalFramesOf payload.length 128 ∧ total ≤ 255 ∧
    ∃ frames, buildFramesLoop defaultProtocol M syncBits0 targetBits0 payload total
        (List.range total) = .ok frames ∧ bits = frames.flatten := by
  have hsync : hexToBitstream defaultProtocol.sync_sequence_hex
      (defaultProtocol.frame_layout.sync_symbols * 2) = .ok syncBits0 := rfl
  have htarget : hexToBitstream defaultProtocol.target_id_hex
      (defaultProtocol.frame_layout.target_id_symbols * 2) = .ok targetBits0 := rfl
  have hmax : defaultProtocol.max_frames = 256 := rfl
  simp only [buildFullBitstream, hm, hmax] at hb
  by_cases h256 : totalFramesOf payload.length 128 > 256
  · rw [if_pos h256] at hb
    exact absurd hb (by simp)
  by_cases heq : totalFramesOf payload.length 128 = 256
  · rw [heq] at hb
    rw [if_neg (by omega)] at hb
    rw [hsync, exceptBind_ok, htarget, exceptBind_ok] at hb
    have hf0 : buildFrame defaultProtocol M syncBits0 targetBits0 payload 256 0 =
        .error .invalidArgument := by
      unfold buildFrame
      rw [show intToBitstream (commandWord defaultProtocol 0 256)
        (defaultProtocol.frame_layout.command_type_symbols * 2) =
          .error .invalidArgument from rfl, exceptBind_err]
    have hloop : buildFramesLoop defaultProtocol M syncBits0 targetBits0 payload 256
        (List.range 256) = .error .invalidArgument := by
      rw [List.range_succ_eq_map]
      unfold buildFramesLoop
      rw [hf0, exceptBind_err]
    rw [hloop, exceptBind_err] at hb
    exact absurd hb (by simp)
  · rw [if_neg (by omega)] at hb
    rw [hsync, exceptBind_ok, htarget, exceptBind_ok] at hb
    cases hloop : buildFramesLoop defaultProtocol M syncBits0 targetBits0 payload
        (totalFramesOf payload.length 128)
        (List.range (totalFramesOf payload.length 128)) with
    | error e =>
      rw [hloop, exceptBind_err] at hb
      exact absurd hb (by simp)
    | ok frames =>
      rw [hloop, exceptBind_ok] at hb
      have hpair := Except.ok.inj hb
      have hbits : frames.flatten = bits := congrArg Prod.fst hpair
      have htot : totalFramesOf payload.length 128 = total := congrArg Prod.snd hpair
      subst htot
      exact ⟨rfl, by omega, frames, hloop, hbits.symm⟩

/-- The three 32-bit header fields of a frame built as
sync ++ target ++ command ++ codeword sit at offsets 0, 32 and 64. -/
theorem frame_header_slices (s t c w : List Nat) (hs : s.length = 32)
    (ht : t.length = 32) (hc : c.length = 32) :
    listSlice (s ++ t ++ c ++ w) 0 32 = s ∧
    listSlice (s ++ t ++ c ++ w) 32 32 = t ∧
    listSlice (s ++ t ++ c ++ w) 64 32 = c := by
  refine ⟨?_, ?_, ?_⟩
  · have hshape : s ++ t ++ c ++ w = s ++ (t ++ (c ++ w)) := by
      simp [List.append_assoc]
    rw [hshape]
    exact listSlice_append_left _ _ _ hs
  · have hshape : s ++ t ++ c ++ w = s ++ (t ++ (c ++ w)) := by
      simp [List.append_assoc]
    rw [hshape, listSlice_append_shift _ _ _ 32 hs]
    exact listSlice_append_left _ _ _ ht
  · have hshape : s ++ t ++ c ++ w = (s ++ t) ++ (c ++ w) := by
      simp [List.append_assoc]
    rw [hshape, listSlice_append_shift _ _ _ 32 (by rw [List.length_append, hs, ht])]
    exact listSlice_append_left _ _ _ hc

/-- The sync search loop finds nothing exactly when no candidate position
in its range matches. -/
theorem syncSearchAux_eq_none_iff (demod syncBits : List Nat) :
    ∀ rem idx, syncSearchAux demod syncBits idx rem = none ↔
      ∀ j, idx ≤ j → j < idx + rem → listSlice demod j syncBits.length ≠ syncBits := by
  intro rem
  induction rem with
  | zero =>
    intro idx
    constructor
    · intro _ j h1 h2
      omega
    · intro _
      rfl
  | succ n ih =>
    intro idx
    by_cases h : listSlice demod idx syncBits.length = syncBits
    · simp only [syncSearchAux, if_pos h]
      constructor
      · intro hfalse
        exact absurd hfalse (by simp)
      · intro hall
        exact absurd h (hall idx le_rfl (by omega))
    · simp only [syncSearchAux, if_neg h]
      rw [ih (idx + 1)]
      constructor
      · intro hall j h1 h2
        rcases Nat.eq_or_lt_of_le h1 with heq | hlt
        · subst heq; exact h
        · exact hall j hlt (by omega)
      · intro hall j h1 h2
        exact hall j (by omega) (by omega)

/-- When the sync search loop returns a position, the slice there matches,
the position lies in the searched range, and no earlier position in the
range matches. -/
theorem syncSearchAux_eq_some (demod syncBits : List Nat) :
    ∀ rem idx p, syncSearchAux demod syncBits idx rem = some p →
      listSlice demod p syncBits.length = syncBits ∧ idx ≤ p ∧ p < idx + rem ∧
      ∀ q, idx ≤ q → q < p → listSlice demod q syncBits.length ≠ syncBits := by
  intro rem
  induction rem with
  | zero =>
    intro idx p h
    exact absurd h (by simp [syncSearchAux])
  | succ n ih =>
    intro idx p h
    by_cases hs : listSlice demod idx syncBits.length = syncBits
    · simp only [syncSearchAux, if_pos hs, Option.some.injEq] at h
      subst h
      exact ⟨hs, le_rfl, by omega, fun q h1 h2 => by omega⟩
    · simp only [syncSearchAux, if_neg hs] at h
      obtain ⟨ha, hb, hc, hd⟩ := ih (idx + 1) p h
      refine ⟨ha, by omega, by omega, fun q h1 h2 => ?_⟩
      rcases Nat.eq_or_lt_of_le h1 with heq | hlt
      · subst heq; exact hs
      · exact hd q hlt h2

/-- An element produced by getLast? is a member of the list. -/
theorem getLast?_eq_some_mem {α : Type} {l : List α} {a : α}
    (h : l.getLast? = some a) : a ∈ l := by
  obtain ⟨hne, heq⟩ := List.mem_getLast?_eq_getLast (by simpa [Option.mem_def] using h)
  rw [heq]
  exact List.getLast_mem hne

/-- The quiescent loop invariant: every accumulator of the recovery loop
is zero and every emitted output so far is zero. -/
def ZeroLoopState (st : LoopState) : Prop :=
  st.nco_phase = 0 ∧ st.nco_freq_rad = 0 ∧ st.integrator_carrier = 0 ∧
  st.timing_error = 0 ∧ st.integrator_timing = 0 ∧
  (∀ z ∈ st.out_symbols, z = ((0 : ℚ), (0 : ℚ))) ∧
  (∀ x ∈ st.out_nco_freq, x = (0 : ℚ)) ∧
  (∀ x ∈ st.out_timing_error, x = (0 : ℚ))

/-- Interpolating anywhere in an all-zero baseband yields zero whenever it
yields anything. -/
theorem interpAt_zero (signal : List (ℚ × ℚ))
    (hsig : ∀ p ∈ signal, p = ((0 : ℚ), (0 : ℚ))) (pos : ℚ) (v : ℚ × ℚ)
    (h : interpAt signal pos = some v) : v = (0, 0) := by
  have hget : ∀ n, signal.getD n (0, 0) = ((0 : ℚ), (0 : ℚ)) := by
    intro n
    rcases lt_or_ge n signal.length with hlt | hge
    · rw [List.getD_eq_getElem _ _ hlt]
      exact hsig _ (List.getElem_mem hlt)
    · rw [List.getD_eq_getElem?_getD, List.getElem?_eq_none hge]
      rfl
  unfold interpAt at h
  by_cases hguard : (⌊pos⌋ : Int) < 1 ∨ (⌊pos⌋ : Int) + 1 ≥ (signal.length : Int)
  · rw [if_pos hguard] at h
    exact absurd h (by simp)
  · rw [if_neg hguard] at h
    have hv := Option.some.inj h
    rw [hget, hget] at hv
    rw [← hv]
    norm_num

/-- One pass of the loop body from a quiescent state on an all-zero
baseband either halts with the state unchanged or stays quiescent and
advances the fractional index by exactly samples_per_symbol. -/
theorem loopStep_zero (cexpNeg : ℚ → ℚ × ℚ) (arctan2 : ℚ → ℚ → ℚ)
    (twoPi sampleRate : ℚ) (gains : LoopGains) (signal : List (ℚ × ℚ)) (sps : ℚ)
    (hsig : ∀ p ∈ signal, p = ((0 : ℚ), (0 : ℚ))) (hatan : arctan2 0 0 = 0)
    (st : LoopState) (hz : ZeroLoopState st) :
    loopStep cexpNeg arctan2 twoPi sampleRate gains signal sps st = .halt st ∨
    ∃ stN, loopStep cexpNeg arctan2 twoPi sampleRate gains signal sps st = .next stN ∧
      ZeroLoopState stN ∧ stN.i_in = st.i_in + sps := by
  obtain ⟨h1, h2, h3, h4, h5, h6, h7, h8⟩ := hz
  unfold loopStep
  cases hmid : interpAt signal st.i_in with
  | none => left; rfl
  | some mid =>
  cases hhalf : interpAt signal (st.i_in - sps / 2) with
  | none => left; rfl
  | some half =>
  have hmid0 : mid = (0, 0) := interpAt_zero signal hsig _ _ hmid
  have hhalf0 : half = (0, 0) := interpAt_zero signal hsig _ _ hhalf
  subst hmid0
  subst hhalf0
  right
  cases hlast : st.out_symbols.getLast? with
  | none =>
    refine ⟨_, rfl, ?_, ?_⟩
    · refine ⟨?_, ?_, ?_, ?_, ?_, ?_, ?_, ?_⟩ <;>
        simp only [cmul, hatan, h1, h2, h3, h4, h5] <;>
        first
        | (intro y hy
           rcases List.mem_append.mp hy with hin | hin
           · first
             | exact h6 y hin
             | exact h7 y hin
             | exact h8 y hin
           · simp only [List.mem_singleton] at hin
             subst hin
             norm_num [hatan])
        | exact Or.inr hatan
        | norm_num [hatan]
    · simp only [cmul, hatan, h1, h2, h3, h4, h5]
      norm_num [hatan]
  | some prev =>
    have hprev : prev = (0, 0) := h6 prev (getLast?_eq_some_mem hlast)
    subst hprev
    refine ⟨_, rfl, ?_, ?_⟩
    · refine ⟨?_, ?_, ?_, ?_, ?_, ?_, ?_, ?_⟩ <;>
        simp only [cmul, hatan, h1, h2, h3, h4, h5] <;>
        first
        | (intro y hy
           rcases List.mem_append.mp hy with hin | hin
           · first
             | exact h6 y hin
             | exact h7 y hin
             | exact h8 y hin
           · simp only [List.mem_singleton] at hin
             subst hin
             norm_num [hatan])
        | exact Or.inr hatan
        | norm_num [hatan]
    · simp only [cmul, hatan, h1, h2, h3, h4, h5]
      norm_num [hatan]

/-- Running the loop from a quiescent state on an all-zero baseband with
enough fuel terminates in a quiescent state. -/
theorem loopRun_zero (cexpNeg : ℚ → ℚ × ℚ) (arctan2 : ℚ → ℚ → ℚ)
    (twoPi sampleRate : ℚ) (gains : LoopGains) (signal : List (ℚ × ℚ)) (sps : ℚ)
    (hsig : ∀ p ∈ signal, p = ((0 : ℚ), (0 : ℚ))) (hatan : arctan2 0 0 = 0) :
    ∀ (fuel : Nat) (st : LoopState), ZeroLoopState st →
      (signal.length : ℚ) - sps - 1 ≤ st.i_in + fuel * sps →
      ∃ stF, loopRun cexpNeg arctan2 twoPi sampleRate gains signal sps fuel st = some stF ∧
        ZeroLoopState stF := by
  intro fuel
  induction fuel with
  | zero =>
    intro st hz hb
    unfold loopRun
    rw [if_neg (by push_cast at hb; linarith)]
    exact ⟨st, rfl, hz⟩
  | succ n ih =>
    intro st hz hb
    unfold loopRun
    by_cases hc : st.i_in < (signal.length : ℚ) - sps - 1
    · rw [if_pos hc]
      rcases loopStep_zero cexpNeg arctan2 twoPi sampleRate gains signal sps hsig hatan
          st hz with hstep | ⟨stN, hstep, hzN, hiN⟩
      · rw [hstep]
        exact ⟨st, rfl, hz⟩
      · rw [hstep]
        apply ih stN hzN
        rw [hiN]
        push_cast at hb ⊢
        linarith
    · rw [if_neg hc]
      exact ⟨st, rfl, hz⟩

/-!
## Claim theorems
-/

/-- Claim C1: run_simulation was claimed to either return a result or fail
with one of the five section-7 fatal kinds, never by accessing a missing
configuration field.  In the code, even when matrix construction and
encoding succeed, evaluating the demodulation call arguments reads
sim_config.generate_plots, an attribute the SimulationConfig dataclass
does not declare, so every run raises AttributeError, which is not a
section-7 kind. -/
theorem c1_run_simulation_missing_attribute :
    (∀ demodStage,
      runSimulationSkeleton (.ok ()) (.ok ()) demodStage =
        Except.error ErrorKind.attributeError) ∧
    simulationConfigGetattr "generate_plots" = none ∧
    section7Fatal ErrorKind.attributeError = false := by
  refine ⟨fun demodStage => ?_, rfl, rfl⟩
  rfl

/-- Claim C3: the modulate-then-slice round trip was claimed to return the
original bit pair for every pair.  In the code it fails at (0, 0): the
forward Gray table sends (0, 0) to constellation index 0, the slicer on
the exact phase of index 0 returns index 0, and qpsk_reverse_bit_map sends
index 0 to (0, 1).  The pairs (0, 0) and (0, 1) are swapped while (1, 1)
and (1, 0) round-trip correctly. -/
theorem c3_gray_roundtrip_fails_at_zero_zero :
    qpskRoundTrip 0 0 = some (0, 1) ∧ qpskRoundTrip 0 1 = some (0, 0) ∧
    qpskRoundTrip 1 1 = some (1, 1) ∧ qpskRoundTrip 1 0 = some (1, 0) := by
  refine ⟨?_, ?_, ?_, ?_⟩ <;> rfl

/-- Claim C9: the receiver matched filter was claimed to be built with
exactly 101 taps.  The code sets num_taps = 101 but builds the tap grid
np.arange(-num_taps // 2, num_taps // 2 + 1) = arange(-51, 51), which has
102 entries, one more than num_taps. -/
theorem c9_rrc_tap_grid_has_102_entries :
    rrcTapIndices.length = 102 ∧ rrcNumTaps = 101 ∧
    rrcTapIndices.length ≠ rrcNumTaps := by
  refine ⟨?_, rfl, ?_⟩ <;> decide

/-- Claim C5: with an empty plaintext the run was claimed to finish with
no fatal error, total_frames = 1 and an empty recovered message.  The
frame assembler does report total_frames = 1 on the empty payload, but the
post-FEC tail of demodulate_and_decode divides the error count by
len(payload_bits) = 0, raising ZeroDivisionError, which is not a section-7
kind, for every decoded bit list. -/
theorem c5_empty_payload_divides_by_zero :
    (∀ decodedBits,
      postFecStage (stringToBitstream []) decodedBits =
        Except.error ErrorKind.zeroDivisionError) ∧
    buildFullBitstream (stringToBitstream []) defaultProtocol M0 =
      .ok ((buildFullBitstream (stringToBitstream []) defaultProtocol M0).toOption.elim [] Prod.fst, 1) ∧
    section7Fatal ErrorKind.zeroDivisionError = false := by
  refine ⟨fun decodedBits => rfl, ?_, rfl⟩
  rfl

/-- Claim C6 counterexample: the sync search was claimed to find the
pattern also at the last possible position p = length - 32.  On a
demodulated stream that consists of exactly the 32 sync bits the slice at
p = 0 = length - 32 equals the pattern, yet the search range
range(len - 32) is empty and the stage raises FrameSyncLost. -/
theorem c6_sync_search_misses_last_position :
    hexToBitstream defaultProtocol.sync_sequence_hex
        (defaultProtocol.frame_layout.sync_symbols * 2) = .ok syncBits0 ∧
    syncBits0.length = 32 ∧
    listSlice syncBits0 (syncBits0.length - 32) 32 = syncBits0 ∧
    frameSyncStage syncBits0 syncBits0 = Except.error ErrorKind.frameSyncLost := by
  refine ⟨rfl, rfl, ?_, rfl⟩
  rfl

/-- Claim C4 counterexample: the frame assembler was claimed to return
normally for every payload needing at most max_frames = 256 frames.  A
payload of 32768 bits needs exactly 256 frames, which passes the overflow
check, but the command word of frame 0 is
1 OR (0 shifted 16) OR (256 shifted 24) = 2^32 + 1, which does not fit in
the 32-bit command field, so int_to_bitstream raises ValueError
(InvalidArgument). -/
theorem c4_exactly_256_frames_rejected :
    totalFramesOf (List.replicate 32768 (0 : Nat)).length M0.message_bits = 256 ∧
    (256 : Nat) ≤ defaultProtocol.max_frames ∧
    commandWord defaultProtocol 0 256 = 2 ^ 32 + 1 ∧
    buildFullBitstream (List.replicate 32768 0) defaultProtocol M0 =
      Except.error ErrorKind.invalidArgument := by
  refine ⟨?_, by decide, by decide, ?_⟩
  · rw [List.length_replicate]; decide
  · show buildFullBitstream (List.replicate 32768 0) defaultProtocol M0 = _
    unfold buildFullBitstream
    rw [List.length_replicate]
    rfl

/-- Claim C8: for every message row m of 128 bits, the codeword
c = m @ G mod 2 computed with the generator matrix of
create_ldpc_matrices satisfies c[0:128] = m, whatever parity-check matrix
H the construction started from: the left block of G is the identity. -/
theorem c8_systematic_first_k_bits (H : List (List Nat)) (m : List Nat)
    (hm : m.length = 128) (hbits : ∀ b ∈ m, b ≤ 1) :
    listSlice (matVecMod2 m (buildG H 128)) 0 128 = m := by
  have hG : (buildG H 128).length = 128 := buildG_length H 128
  have h0 : (buildG H 128).headD [] = (buildG H 128).getD 0 [] := by
    cases buildG H 128 <;> simp [List.headD, List.getD]
  have hhead : ((buildG H 128).headD []).length = 128 + H.length := by
    rw [h0]; exact buildG_row_length H 128 0 (by omega)
  unfold listSlice matVecMod2
  rw [List.drop_zero, hhead, ← List.map_take, List.take_range]
  have hmin : min 128 (128 + H.length) = 128 := by omega
  rw [hmin]
  apply List.ext_getElem
  · simpa using hm.symm
  intro j hj1 hj2
  have hjlt : j < 128 := by simpa using hj1
  rw [List.getElem_map, List.getElem_range]
  rw [sum_zip_eq_sum_range (fun a r => a * r.getD j 0) 0 []]
  rw [hm, hG, Nat.min_self]
  have hsum : (∑ c ∈ Finset.range 128,
      m.getD c 0 * ((buildG H 128).getD c []).getD j 0) = m.getD j 0 := by
    have hcong : ∀ c ∈ Finset.range 128,
        m.getD c 0 * ((buildG H 128).getD c []).getD j 0 =
          if c = j then m.getD c 0 else 0 := by
      intro c hc
      rw [buildG_getD_left H 128 c j (Finset.mem_range.mp hc) hjlt]
      by_cases hcj : c = j
      · subst hcj; simp
      · rw [if_neg (fun hj => hcj hj.symm), if_neg hcj]; ring
    rw [Finset.sum_congr rfl hcong, Finset.sum_ite_eq' (Finset.range 128) j (fun c => m.getD c 0)]
    simp [hjlt]
  rw [hsum, List.getD_eq_getElem m 0 hj2]
  exact Nat.mod_eq_of_lt (by
    have := hbits m[j] (List.getElem_mem hj2)
    omega)

/-- Claim C2: every row of G * H^T mod 2 is the zero vector, for the
generator matrix that create_ldpc_matrices derives from a systematic
parity-check matrix.  The parity-check matrix is modelled from the spec
as [A | I] (pyldpc.make_ldpc is external, see systematicParityH); the
quantification over the 0/1 block A covers every seed. -/
theorem c2_generator_parity_orthogonal (A : List (List Nat))
    (hA : A.length = 32)
    (hrows : ∀ r ∈ A, r.length = 128 ∧ ∀ x ∈ r, x ≤ 1) :
    ∀ row ∈ matMulTransposeMod2 (buildG (systematicParityH A) 128) (systematicParityH A),
      ∀ x ∈ row, x = 0 := by
  intro row hrow x hx
  unfold matMulTransposeMod2 at hrow
  obtain ⟨gr, hgr, rfl⟩ := List.mem_map.mp hrow
  obtain ⟨hr, hhr, rfl⟩ := List.mem_map.mp hx
  rw [buildG] at hgr
  obtain ⟨i, hiR, rfl⟩ := List.mem_map.mp hgr
  have hi : i < 128 := List.mem_range.mp hiR
  rw [systematicParityH] at hhr
  obtain ⟨j, hjR, rfl⟩ := List.mem_map.mp hhr
  have hj : j < A.length := List.mem_range.mp hjR
  have hj32 : j < 32 := by omega
  -- name the two rows through their getD forms
  have hgrEq : ((identityRow 128 i) ++
      (systematicParityH A).map (fun r => r.getD i 0)).map (fun v => v % 2) =
      (buildG (systematicParityH A) 128).getD i [] :=
    (buildG_getD_eq (systematicParityH A) 128 i hi).symm
  have hhrEq : A.getD j [] ++ identityRow A.length j =
      (systematicParityH A).getD j [] :=
    (systematicParityH_getD A j hj).symm
  rw [hgrEq, hhrEq]
  -- facts about the left block rows
  have hAj : A.getD j [] ∈ A := by
    rw [List.getD_eq_getElem A [] hj]; exact List.getElem_mem hj
  have hAjLen : (A.getD j []).length = 128 := (hrows _ hAj).1
  have hHsLen : (systematicParityH A).length = 32 := by
    rw [systematicParityH_length, hA]
  -- lengths of the two rows
  have hr1Len : ((buildG (systematicParityH A) 128).getD i []).length = 160 := by
    rw [buildG_row_length _ 128 i hi, hHsLen]
  have hr2Len : ((systematicParityH A).getD j []).length = 160 := by
    rw [← hhrEq, List.length_append, hAjLen, identityRow_length, hA]
  -- expand the dot product as a range sum
  unfold rowDotMod2
  rw [sum_zip_eq_sum_range (fun a b => a * b) 0 0, hr1Len, hr2Len, Nat.min_self]
  have hsplit : (160 : Nat) = 128 + 32 := by decide
  rw [hsplit, Finset.sum_range_add]
  have hS1 : (∑ c ∈ Finset.range 128,
      ((buildG (systematicParityH A) 128).getD i []).getD c 0 *
        ((systematicParityH A).getD j []).getD c 0) = (A.getD j []).getD i 0 := by
    have hcong : ∀ c ∈ Finset.range 128,
        ((buildG (systematicParityH A) 128).getD i []).getD c 0 *
          ((systematicParityH A).getD j []).getD c 0 =
        if c = i then (A.getD j []).getD c 0 else 0 := by
      intro c hc
      have hc128 : c < 128 := Finset.mem_range.mp hc
      rw [buildG_getD_left _ 128 i c hi hc128]
      rw [← hhrEq, List.getD_append _ _ _ _ (by omega : c < (A.getD j []).length)]
      by_cases hci : c = i
      · subst hci; simp
      · rw [if_neg hci, if_neg hci]; ring
    rw [Finset.sum_congr rfl hcong,
      Finset.sum_ite_eq' (Finset.range 128) i (fun c => (A.getD j []).getD c 0)]
    simp [hi]
  have hS2 : (∑ c ∈ Finset.range 32,
      ((buildG (systematicParityH A) 128).getD i []).getD (128 + c) 0 *
        ((systematicParityH A).getD j []).getD (128 + c) 0) = (A.getD j []).getD i 0 := by
    have hcong : ∀ c ∈ Finset.range 32,
        ((buildG (systematicParityH A) 128).getD i []).getD (128 + c) 0 *
          ((systematicParityH A).getD j []).getD (128 + c) 0 =
        if c = j then (A.getD c []).getD i 0 else 0 := by
      intro c hc
      have hc32 : c < 32 := Finset.mem_range.mp hc
      have hcH : c < (systematicParityH A).length := by omega
      rw [buildG_getD_right _ 128 i c hi hcH]
      have hAc : A.getD c [] ∈ A := by
        rw [List.getD_eq_getElem A [] (by omega : c < A.length)]
        exact List.getElem_mem (by omega)
      have hAcLen : (A.getD c []).length = 128 := (hrows _ hAc).1
      -- left factor: entry i of row c of [A | I], reduced mod 2
      rw [systematicParityH_getD A c (by omega : c < A.length)]
      rw [List.getD_append _ _ _ _ (by omega : i < (A.getD c []).length)]
      have hbit : (A.getD c []).getD i 0 ≤ 1 := by
        have hmem : (A.getD c []).getD i 0 ∈ A.getD c [] := by
          rw [List.getD_eq_getElem _ 0 (by omega : i < (A.getD c []).length)]
          exact List.getElem_mem (by omega)
        exact (hrows _ hAc).2 _ hmem
      rw [Nat.mod_eq_of_lt (by omega : (A.getD c []).getD i 0 < 2)]
      -- right factor: entry 128 + c of row j of [A | I]
      rw [← hhrEq, List.getD_append_right _ _ _ _ (by omega : (A.getD j []).length ≤ 128 + c)]
      rw [hAjLen]
      have hidx : 128 + c - 128 = c := by omega
      rw [hidx, identityRow_getD A.length j c (by omega : c < A.length)]
      by_cases hcj : c = j
      · subst hcj; simp
      · rw [if_neg hcj, if_neg hcj]; ring
    rw [Finset.sum_congr rfl hcong,
      Finset.sum_ite_eq' (Finset.range 32) j (fun c => (A.getD c []).getD i 0)]
    simp [hj32]
  rw [hS1, hS2]
  omega

/-- Claim C6, amended: the frame-sync stage raises FrameSyncLost exactly
when no index p with p + 32 < length carries the sync pattern; the final
alignment p = length - 32 is never examined.  When the stage succeeds it
returns the first matching index in that range. -/
theorem c6_amended_sync_search (demod syncBits : List Nat) :
    (frameSyncStage demod syncBits = Except.error ErrorKind.frameSyncLost ↔
      ∀ p, p + syncBits.length < demod.length →
        listSlice demod p syncBits.length ≠ syncBits) ∧
    ∀ p, frameSyncStage demod syncBits = Except.ok p →
      listSlice demod p syncBits.length = syncBits ∧
      p + syncBits.length < demod.length ∧
      ∀ q, q < p → listSlice demod q syncBits.length ≠ syncBits := by
  constructor
  · cases hf : findSyncLocation demod syncBits with
    | none =>
      simp only [frameSyncStage, hf, true_iff]
      have hall := (syncSearchAux_eq_none_iff demod syncBits
        (demod.length - syncBits.length) 0).mp hf
      intro p hp
      exact hall p (Nat.zero_le p) (by omega)
    | some q =>
      simp only [frameSyncStage, hf]
      constructor
      · intro hfalse
        exact absurd hfalse (by simp)
      · intro hall
        obtain ⟨ha, _, hc, _⟩ := syncSearchAux_eq_some demod syncBits
          (demod.length - syncBits.length) 0 q hf
        exact absurd ha (hall q (by omega))
  · intro p hp
    cases hf : findSyncLocation demod syncBits with
    | none => simp [frameSyncStage, hf] at hp
    | some q =>
      simp only [frameSyncStage, hf, Except.ok.injEq] at hp
      obtain ⟨ha, _, hc, hd⟩ := syncSearchAux_eq_some demod syncBits
        (demod.length - syncBits.length) 0 q hf
      subst hp
      exact ⟨ha, by omega, fun r hr => hd r (Nat.zero_le r) hr⟩

/-- Claim C4, amended: under the default protocol the frame assembler
returns normally if and only if total_frames is at most 255.  It raises
ProtocolOverflow exactly when total_frames exceeds max_frames = 256, but
at exactly 256 frames the command word 256 shifted by 24 no longer fits
the 32-bit command field and int_to_bitstream raises ValueError
(InvalidArgument), so a payload of exactly max_frames frames is also
rejected. -/
theorem c4_amended_build_succeeds_iff (payload : List Nat) (M : LDPCMatrices)
    (hm : M.message_bits = 128) :
    (∃ r, buildFullBitstream payload defaultProtocol M = Except.ok r) ↔
      totalFramesOf payload.length 128 ≤ 255 := by
  have hsync : hexToBitstream defaultProtocol.sync_sequence_hex
      (defaultProtocol.frame_layout.sync_symbols * 2) = .ok syncBits0 := rfl
  have htarget : hexToBitstream defaultProtocol.target_id_hex
      (defaultProtocol.frame_layout.target_id_symbols * 2) = .ok targetBits0 := rfl
  have hmax : defaultProtocol.max_frames = 256 := rfl
  constructor
  · rintro ⟨r, hr⟩
    by_contra hgt
    push_neg at hgt
    simp only [buildFullBitstream, hm, hmax] at hr
    by_cases h256 : totalFramesOf payload.length 128 > 256
    · rw [if_pos h256] at hr
      exact absurd hr (by simp)
    · have heq : totalFramesOf payload.length 128 = 256 := by omega
      rw [heq] at hr
      rw [if_neg (by omega)] at hr
      rw [hsync, exceptBind_ok, htarget, exceptBind_ok] at hr
      have hf0 : buildFrame defaultProtocol M syncBits0 targetBits0 payload 256 0 =
          .error .invalidArgument := by
        unfold buildFrame
        rw [show intToBitstream (commandWord defaultProtocol 0 256)
          (defaultProtocol.frame_layout.command_type_symbols * 2) =
            .error .invalidArgument from rfl, exceptBind_err]
      have hloop : buildFramesLoop defaultProtocol M syncBits0 targetBits0 payload 256
          (List.range 256) = .error .invalidArgument := by
        rw [List.range_succ_eq_map]
        unfold buildFramesLoop
        rw [hf0, exceptBind_err]
      rw [hloop, exceptBind_err] at hr
      exact absurd hr (by simp)
  · intro hle
    simp only [buildFullBitstream, hm, hmax]
    rw [if_neg (by omega)]
    rw [hsync, exceptBind_ok, htarget, exceptBind_ok]
    have hframes : ∀ i ∈ List.range (totalFramesOf payload.length 128),
        ∃ f, buildFrame defaultProtocol M syncBits0 targetBits0 payload
          (totalFramesOf payload.length 128) i = .ok f := by
      intro i hi
      have hi' : i < totalFramesOf payload.length 128 := List.mem_range.mp hi
      refine ⟨_, buildFrame_eq_ok defaultProtocol M syncBits0 targetBits0 payload _ i
        (by decide) ?_⟩
      have h32 : defaultProtocol.frame_layout.command_type_symbols * 2 = 32 := rfl
      rw [h32]
      exact commandWord_lt i _ (by omega) hle
    obtain ⟨fs, hfs⟩ := buildFramesLoop_ok defaultProtocol M syncBits0 targetBits0 payload
      (totalFramesOf payload.length 128) (List.range (totalFramesOf payload.length 128))
      hframes
    rw [hfs, exceptBind_ok]
    exact ⟨_, rfl⟩

/-- Claim C7: for every payload the frame assembler accepts, the returned
bit-stream has length total_frames * 256 and every frame i carries the
0xA5A5A5A5 sync bits at offsets [0, 32), the 0xDEADBEEF target id bits at
[32, 64), and the 32-bit big-endian command word
opcode OR (i shifted 16) OR (total shifted 24) at [64, 96). -/
theorem c7_frame_field_layout (Hp : List (List Nat)) (M : LDPCMatrices)
    (payload bits : List Nat) (total : Nat)
    (hM : createLdpcMatrices defaultProtocol Hp = .ok M)
    (hb : buildFullBitstream payload defaultProtocol M = .ok (bits, total)) :
    bits.length = total * 256 ∧
    ∀ i < total,
      listSlice bits (i * 256) 32 = natToBitsBE 0xA5A5A5A5 32 ∧
      listSlice bits (i * 256 + 32) 32 = natToBitsBE 0xDEADBEEF 32 ∧
      listSlice bits (i * 256 + 64) 32 =
        natToBitsBE (commandWord defaultProtocol i total) 32 := by
  obtain ⟨hMeq, hGlen, hGrows, hH32⟩ := createLdpcMatrices_ok_inv Hp M hM
  subst hMeq
  obtain ⟨htot, hle, frames, hloop, hbits⟩ :=
    buildFullBitstream_ok_inv payload _ bits total rfl hb
  obtain ⟨hflen, hpt⟩ := buildFramesLoop_ok_inv defaultProtocol _ syncBits0 targetBits0
    payload total (List.range total) frames hloop
  rw [List.length_range] at hflen
  have hslen : syncBits0.length = 32 := natToBitsBE_length 0xA5A5A5A5 32
  have htlen : targetBits0.length = 32 := natToBitsBE_length 0xDEADBEEF 32
  have h32 : defaultProtocol.frame_layout.command_type_symbols * 2 = 32 := rfl
  -- each frame is sync ++ target ++ command ++ codeword with a 160-bit codeword
  have hframe : ∀ i, i < total → ∃ cw : List Nat, cw.length = 160 ∧
      frames.getD i [] = syncBits0 ++ targetBits0 ++
        natToBitsBE (commandWord defaultProtocol i total) 32 ++ cw := by
    intro i hi
    have hpti := hpt i (by rw [List.length_range]; exact hi)
    have hrange : (List.range total).getD i 0 = i := by
      rw [List.getD_eq_getElem?_getD, List.getElem?_range hi]
      rfl
    rw [hrange] at hpti
    obtain ⟨hn, hcmd, hf⟩ := buildFrame_ok_inv _ _ _ _ _ _ _ _ hpti
    rw [h32] at hf
    have hf2 : frames.getD i [] = syncBits0 ++ targetBits0 ++
        natToBitsBE (commandWord defaultProtocol i total) 32 ++
        matVecMod2 ((payload.drop (i * 128)).take 128 ++
          List.replicate (128 - ((payload.drop (i * 128)).take 128).length) 0)
          (buildG Hp 128) := by
      rw [hf, List.append_assoc (syncBits0 ++ targetBits0 ++
        natToBitsBE (commandWord defaultProtocol i total) 32), List.take_append_drop]
    refine ⟨_, ?_, hf2⟩
    rw [matVecMod2_length, headD_eq_getD_zero, buildG_row_length Hp 128 0 (by omega), hH32]
  have hall : ∀ f ∈ frames, f.length = 256 := by
    intro f hfmem
    obtain ⟨i, hilt, hfi⟩ := List.mem_iff_getElem.mp hfmem
    have hito : i < total := by omega
    obtain ⟨cw, hcwlen, hfr⟩ := hframe i hito
    have : frames.getD i [] = f := by
      rw [List.getD_eq_getElem _ _ hilt, hfi]
    rw [← this, hfr]
    simp [List.length_append, hslen, htlen, natToBitsBE_length, hcwlen]
  constructor
  · rw [hbits, flatten_length_const 256 frames hall, hflen]
  · intro i hi
    obtain ⟨cw, hcwlen, hfr⟩ := hframe i hi
    have hsl := flatten_slice 256 frames hall i (by omega)
    obtain ⟨h1, h2, h3⟩ := frame_header_slices syncBits0 targetBits0
      (natToBitsBE (commandWord defaultProtocol i total) 32) cw hslen htlen
      (natToBitsBE_length _ 32)
    refine ⟨?_, ?_, ?_⟩
    · have := hsl 0 32 (by omega)
      rw [Nat.add_zero] at this
      rw [hbits, this, hfr]
      exact h1
    · rw [hbits, hsl 32 32 (by omega), hfr]
      exact h2
    · rw [hbits, hsl 64 32 (by omega), hfr]
      exact h3

/-- Claim C10: on an all-zero complex baseband of any length and any
positive samples-per-symbol value, the joint timing and carrier recovery
loop terminates, and every emitted symbol, timing error and NCO frequency
value is exactly zero, hence finite (no NaN, no Inf) and bounded.  The
transcendental primitives of the loop body are abstract parameters; the
only fact used about them is that arctan2(0, 0) = 0, which is the IEEE
and numpy value. -/
theorem c10_loop_zero_input_stable (cexpNeg : ℚ → ℚ × ℚ) (arctan2 : ℚ → ℚ → ℚ)
    (twoPi sampleRate : ℚ) (gains : LoopGains) (signal : List (ℚ × ℚ)) (sps : ℚ)
    (hsig : ∀ p ∈ signal, p = ((0 : ℚ), (0 : ℚ))) (hsps : 0 < sps)
    (hatan : arctan2 0 0 = 0) :
    ∃ fuel stF,
      loopRun cexpNeg arctan2 twoPi sampleRate gains signal sps fuel
        (initLoopState sps) = some stF ∧
      (∀ z ∈ stF.out_symbols, z = ((0 : ℚ), (0 : ℚ))) ∧
      (∀ x ∈ stF.out_nco_freq, x = (0 : ℚ)) ∧
      (∀ x ∈ stF.out_timing_error, x = (0 : ℚ)) := by
  obtain ⟨n, hn⟩ := exists_nat_ge (((signal.length : ℚ) - sps - 1 - sps) / sps)
  have hz0 : ZeroLoopState (initLoopState sps) := by
    refine ⟨rfl, rfl, rfl, rfl, rfl, ?_, ?_, ?_⟩ <;> intro y hy <;>
      simp [initLoopState] at hy
  have hb : (signal.length : ℚ) - sps - 1 ≤ (initLoopState sps).i_in + n * sps := by
    rw [div_le_iff₀ hsps] at hn
    have hiin : (initLoopState sps).i_in = sps := rfl
    rw [hiin]
    linarith
  obtain ⟨stF, hrun, hzF⟩ := loopRun_zero cexpNeg arctan2 twoPi sampleRate gains signal
    sps hsig hatan n (initLoopState sps) hz0 hb
  exact ⟨n, stF, hrun, hzF.2.2.2.2.2.1, hzF.2.2.2.2.2.2.1, hzF.2.2.2.2.2.2.2⟩

/-!
## Witnesses
-/

/-- A concrete all-ones 32 x 128 left block for the modelled parity-check
matrix. -/
def A0 : List (List Nat) := List.replicate 32 (List.replicate 128 1)

set_option maxRecDepth 40000 in
/-- Witness for C2 at the concrete block A0. -/
theorem c2_generator_parity_orthogonal_witness :
    A0.length = 32 ∧ (∀ r ∈ A0, r.length = 128 ∧ ∀ x ∈ r, x ≤ 1) ∧
    ∀ row ∈ matMulTransposeMod2 (buildG (systematicParityH A0) 128)
        (systematicParityH A0),
      ∀ x ∈ row, x = 0 :=
  ⟨by decide, by decide, c2_generator_parity_orthogonal A0 (by decide) (by decide)⟩

/-- Witness for the amended C4 at the empty payload and the concrete
matrices M0. -/
theorem c4_amended_build_succeeds_iff_witness :
    M0.message_bits = 128 ∧
    ((∃ r, buildFullBitstream [] defaultProtocol M0 = Except.ok r) ↔
      totalFramesOf (List.length ([] : List Nat)) 128 ≤ 255) :=
  ⟨rfl, c4_amended_build_succeeds_iff [] M0 rfl⟩

/-- Witness for the amended C6 on a 33-bit stream that starts with the
sync pattern. -/
theorem c6_amended_sync_search_witness :
    (frameSyncStage (syncBits0 ++ [0]) syncBits0 = Except.error ErrorKind.frameSyncLost ↔
      ∀ p, p + syncBits0.length < (syncBits0 ++ [0]).length →
        listSlice (syncBits0 ++ [0]) p syncBits0.length ≠ syncBits0) ∧
    ∀ p, frameSyncStage (syncBits0 ++ [0]) syncBits0 = Except.ok p →
      listSlice (syncBits0 ++ [0]) p syncBits0.length = syncBits0 ∧
      p + syncBits0.length < (syncBits0 ++ [0]).length ∧
      ∀ q, q < p → listSlice (syncBits0 ++ [0]) q syncBits0.length ≠ syncBits0 :=
  c6_amended_sync_search (syncBits0 ++ [0]) syncBits0

/-- The bit-stream that the frame assembler returns on the empty payload
with the concrete matrices M0. -/
def c7wBits : List Nat :=
  match buildFullBitstream [] defaultProtocol M0 with
  | .ok (b, _) => b
  | .error _ => []

set_option maxRecDepth 40000 in
/-- Witness for C7 at the empty payload and the concrete matrices M0. -/
theorem c7_frame_field_layout_witness :
    createLdpcMatrices defaultProtocol H0 = Except.ok M0 ∧
    buildFullBitstream [] defaultProtocol M0 = Except.ok (c7wBits, 1) ∧
    (c7wBits.length = 1 * 256 ∧
     ∀ i < 1,
       listSlice c7wBits (i * 256) 32 = natToBitsBE 0xA5A5A5A5 32 ∧
       listSlice c7wBits (i * 256 + 32) 32 = natToBitsBE 0xDEADBEEF 32 ∧
       listSlice c7wBits (i * 256 + 64) 32 =
         natToBitsBE (commandWord defaultProtocol i 1) 32) :=
  ⟨rfl, rfl, c7_frame_field_layout H0 M0 [] c7wBits 1 rfl rfl⟩

/-- An alternating 128-bit message. -/
def m0bits : List Nat := (List.range 128).map (fun i => i % 2)

set_option maxRecDepth 40000 in
/-- Witness for C8 at the alternating message and the concrete
parity-check matrix H0. -/
theorem c8_systematic_first_k_bits_witness :
    m0bits.length = 128 ∧ (∀ b ∈ m0bits, b ≤ 1) ∧
    listSlice (matVecMod2 m0bits (buildG H0 128)) 0 128 = m0bits :=
  ⟨by decide, by decide, c8_systematic_first_k_bits H0 m0bits (by decide) (by decide)⟩

/-- Witness for C10 on a concrete 8-sample all-zero baseband with
samples_per_symbol 2 and concrete stand-ins for the transcendental
primitives. -/
theorem c10_loop_zero_input_stable_witness :
    (∀ p ∈ List.replicate 8 ((0 : ℚ), (0 : ℚ)), p = ((0 : ℚ), (0 : ℚ))) ∧
    ((0 : ℚ) < 2) ∧ ((fun _ _ => (0 : ℚ)) (0 : ℚ) (0 : ℚ) = 0) ∧
    ∃ fuel stF,
      loopRun (fun _ => ((1 : ℚ), (0 : ℚ))) (fun _ _ => (0 : ℚ)) 6 48000
        defaultLoopGains (List.replicate 8 ((0 : ℚ), (0 : ℚ))) 2 fuel
        (initLoopState 2) = some stF ∧
      (∀ z ∈ stF.out_symbols, z = ((0 : ℚ), (0 : ℚ))) ∧
      (∀ x ∈ stF.out_nco_freq, x = (0 : ℚ)) ∧
      (∀ x ∈ stF.out_timing_error, x = (0 : ℚ)) :=
  ⟨by decide, by norm_num, rfl,
   c10_loop_zero_input_stable (fun _ => ((1 : ℚ), (0 : ℚ))) (fun _ _ => (0 : ℚ)) 6 48000
     defaultLoopGains (List.replicate 8 ((0 : ℚ), (0 : ℚ))) 2 (by decide) (by norm_num) rfl⟩

end Chimera
